import Mathlib

/-!
Verification of the chrono_machines retry library.

The development shallowly embeds the Rust sources of the repository:

* `core/src/backoff.rs` — the three backoff strategies and the
  `BackoffPolicy` tagged union;
* `core/src/retry.rs` — the retry engine (`RetryBuilder::call_with_sleeper`)
  together with its outcome / error / context value types;
* `core/src/lib.rs` — the standalone `Policy` helper;
* `ffi/src/lib.rs` — the host-binding delay functions.

Modelling conventions:

* `u64` and `u8` quantities are natural numbers; saturating arithmetic is
  explicit (`satAdd64`, `satAdd8`); `u8`-typed configuration bounds are
  `Fin 256`.
* `f64` values are modelled as exact rationals extended with an explicit
  NaN marker (`Fl`).  IEEE rounding is not modelled; the NaN propagation
  rules of the Rust operations used by the sources are
  (`clamp` propagates NaN, `f64::min` ignores NaN, arithmetic propagates
  NaN, `as u64` maps NaN to 0 and saturates).
* The stateful closure passed to the engine is modelled as a function from
  the invocation index to its result; the random generator is a stream of
  scalars indexed by the iteration; the sleeper is observable through the
  trace of slept delays.
-/

namespace ChronoMachines

/-- Largest value of a `u64`. -/
def U64MAX : ℕ := 2 ^ 64 - 1

/-- `u64::saturating_add`. -/
def satAdd64 (a b : ℕ) : ℕ := min (a + b) U64MAX

/-- `u8::saturating_add`. -/
def satAdd8 (a b : ℕ) : ℕ := min (a + b) 255

/-- Model of an `f64` value: an exact rational or the NaN marker. -/
inductive Fl where
  | nan : Fl
  | val (q : ℚ) : Fl
deriving DecidableEq

namespace Fl

/-- `f64` addition: NaN propagates. -/
def add : Fl → Fl → Fl
  | nan, _ => nan
  | _, nan => nan
  | val a, val b => val (a + b)

/-- `f64` subtraction: NaN propagates. -/
def sub : Fl → Fl → Fl
  | nan, _ => nan
  | _, nan => nan
  | val a, val b => val (a - b)

/-- `f64` multiplication: NaN propagates. -/
def mul : Fl → Fl → Fl
  | nan, _ => nan
  | _, nan => nan
  | val a, val b => val (a * b)

/-- `f64::min`: a NaN argument is ignored and the other argument returned. -/
def fmin : Fl → Fl → Fl
  | nan, y => y
  | x, nan => x
  | val a, val b => val (min a b)

/-- `f64::powi` with a non-negative exponent: NaN propagates. -/
def powi : Fl → ℕ → Fl
  | nan, _ => nan
  | val q, n => val (q ^ n)

/-- `f64::clamp(0.0, 1.0)`: NaN propagates (Rust `clamp` keeps NaN). -/
def clamp01 : Fl → Fl
  | nan => nan
  | val q => val (min 1 (max 0 q))

/-- `f64::is_nan`. -/
def isNan : Fl → Bool
  | nan => true
  | val _ => false

/-- Rust `as u64` cast of an `f64`: NaN becomes 0, the value is truncated
toward zero and saturated into the `u64` range. -/
def toU64 : Fl → ℕ
  | nan => 0
  | val q => min (Int.toNat ⌊q⌋) U64MAX

@[simp] lemma add_val (a b : ℚ) : (val a).add (val b) = val (a + b) := rfl
@[simp] lemma sub_val (a b : ℚ) : (val a).sub (val b) = val (a - b) := rfl
@[simp] lemma mul_val (a b : ℚ) : (val a).mul (val b) = val (a * b) := rfl
@[simp] lemma fmin_val (a b : ℚ) : (val a).fmin (val b) = val (min a b) := rfl
@[simp] lemma powi_val (a : ℚ) (n : ℕ) : (val a).powi n = val (a ^ n) := rfl
@[simp] lemma clamp01_val (q : ℚ) : clamp01 (val q) = val (min 1 (max 0 q)) := rfl
@[simp] lemma clamp01_nan : clamp01 nan = nan := rfl
@[simp] lemma add_nan : ∀ x, add x nan = nan := by intro x; cases x <;> rfl
@[simp] lemma nan_add : ∀ x, add nan x = nan := by intro x; cases x <;> rfl
@[simp] lemma sub_nan : ∀ x, sub x nan = nan := by intro x; cases x <;> rfl
@[simp] lemma nan_sub : ∀ x, sub nan x = nan := by intro x; cases x <;> rfl
@[simp] lemma mul_nan : ∀ x, mul x nan = nan := by intro x; cases x <;> rfl
@[simp] lemma nan_mul : ∀ x, mul nan x = nan := by intro x; cases x <;> rfl
@[simp] lemma toU64_nan : toU64 nan = 0 := rfl

lemma toU64_val_natCast (n : ℕ) (h : n ≤ U64MAX) : toU64 (val (n : ℚ)) = n := by
  simp [toU64]
  omega

lemma toU64_le_U64MAX (x : Fl) : toU64 x ≤ U64MAX := by
  cases x with
  | nan => simp [toU64, U64MAX]
  | val q => simp [toU64]

/-- The cast of a non-negative rational never exceeds the rational itself. -/
lemma toU64_val_le (q : ℚ) (hq : 0 ≤ q) : ((toU64 (val q) : ℕ) : ℚ) ≤ q := by
  have hfloor : (0 : ℤ) ≤ ⌊q⌋ := Int.floor_nonneg.2 hq
  have h1 : (min (Int.toNat ⌊q⌋) U64MAX : ℕ) ≤ Int.toNat ⌊q⌋ := Nat.min_le_left _ _
  have h2 : ((Int.toNat ⌊q⌋ : ℕ) : ℚ) ≤ q := by
    have heq : ((Int.toNat ⌊q⌋ : ℕ) : ℤ) = ⌊q⌋ := Int.toNat_of_nonneg hfloor
    calc ((Int.toNat ⌊q⌋ : ℕ) : ℚ) = ((⌊q⌋ : ℤ) : ℚ) := by exact_mod_cast heq
      _ ≤ q := Int.floor_le q
  calc ((toU64 (val q) : ℕ) : ℚ) ≤ ((Int.toNat ⌊q⌋ : ℕ) : ℚ) := by exact_mod_cast h1
    _ ≤ q := h2

end Fl

/-- Jitter blend `1.0 - jitter_factor + random_scalar * jitter_factor`;
the identical three-line computation appears verbatim in all three strategy
implementations in `backoff.rs` and in `apply_jitter` in `ffi/src/lib.rs`. -/
def jitterBlend (j r : Fl) : Fl := ((Fl.val 1).sub j).add (r.mul j)

/-- `base * jitter_blend`, the shared tail of every delay computation. -/
def applyJitterFl (base j r : Fl) : Fl := base.mul (jitterBlend j r)

/-- `ExponentialBackoff` from `backoff.rs`. -/
structure ExponentialBackoff where
  max_attempts : Fin 256
  base_delay_ms : ℕ
  multiplier : Fl
  max_delay_ms : ℕ
  jitter_factor : Fl

/-- `ExponentialBackoff::delay`: `None` once `attempt >= max_attempts`,
otherwise the jittered, capped exponential delay, truncated to `u64`. -/
def ExponentialBackoff.delay (s : ExponentialBackoff) (attempt : ℕ) (r : ℚ) : Option ℕ :=
  if s.max_attempts.val ≤ attempt then none
  else
    let j := s.jitter_factor.clamp01
    let exponent := attempt - 1
    let baseExponential := (Fl.val (s.base_delay_ms : ℚ)).mul (s.multiplier.powi exponent)
    let capped := baseExponential.fmin (Fl.val (s.max_delay_ms : ℚ))
    some ((applyJitterFl capped j (Fl.val r)).toU64)

/-- `ExponentialBackoff::should_retry`. -/
def ExponentialBackoff.should_retry (s : ExponentialBackoff) (attempt : ℕ) : Bool :=
  attempt < s.max_attempts.val

/-- `ConstantBackoff` from `backoff.rs`. -/
structure ConstantBackoff where
  delay_ms : ℕ
  max_attempts : Fin 256
  jitter_factor : Fl

/-- `ConstantBackoff::delay`. -/
def ConstantBackoff.delay (s : ConstantBackoff) (attempt : ℕ) (r : ℚ) : Option ℕ :=
  if s.max_attempts.val ≤ attempt then none
  else
    let j := s.jitter_factor.clamp01
    let base := Fl.val (s.delay_ms : ℚ)
    some ((applyJitterFl base j (Fl.val r)).toU64)

/-- `ConstantBackoff::should_retry`. -/
def ConstantBackoff.should_retry (s : ConstantBackoff) (attempt : ℕ) : Bool :=
  attempt < s.max_attempts.val

/-- Iterative loop of `FibonacciBackoff::fibonacci`: `k` remaining
iterations over the state pair `(a, b)`, with saturating addition. -/
def fibLoop : ℕ → ℕ → ℕ → ℕ
  | 0, _, b => b
  | k + 1, a, b => fibLoop k b (satAdd64 a b)

/-- `FibonacciBackoff::fibonacci` (1-indexed, `fib 0 = 0` edge case),
computed iteratively with `u64::saturating_add`. -/
def FibonacciBackoff.fibonacci (n : ℕ) : ℕ :=
  if n = 0 then 0
  else if n ≤ 2 then 1
  else fibLoop (n - 2) 1 1

/-- `FibonacciBackoff` from `backoff.rs`. -/
structure FibonacciBackoff where
  base_delay_ms : ℕ
  max_delay_ms : ℕ
  max_attempts : Fin 256
  jitter_factor : Fl

/-- `FibonacciBackoff::delay`. -/
def FibonacciBackoff.delay (s : FibonacciBackoff) (attempt : ℕ) (r : ℚ) : Option ℕ :=
  if s.max_attempts.val ≤ attempt then none
  else
    let j := s.jitter_factor.clamp01
    let fib := FibonacciBackoff.fibonacci attempt
    let base := ((Fl.val (s.base_delay_ms : ℚ)).mul (Fl.val (fib : ℚ))).fmin
      (Fl.val (s.max_delay_ms : ℚ))
    some ((applyJitterFl base j (Fl.val r)).toU64)

/-- `FibonacciBackoff::should_retry`. -/
def FibonacciBackoff.should_retry (s : FibonacciBackoff) (attempt : ℕ) : Bool :=
  attempt < s.max_attempts.val

/-- `BackoffPolicy`, the closed tagged union over the three strategies. -/
inductive BackoffPolicy where
  | exponential (s : ExponentialBackoff)
  | constant (s : ConstantBackoff)
  | fibonacci (s : FibonacciBackoff)

/-- `BackoffPolicy::max_attempts`. -/
def BackoffPolicy.max_attempts : BackoffPolicy → Fin 256
  | .exponential s => s.max_attempts
  | .constant s => s.max_attempts
  | .fibonacci s => s.max_attempts

/-- `BackoffPolicy` delegation of `BackoffStrategy::delay`. -/
def BackoffPolicy.delay : BackoffPolicy → ℕ → ℚ → Option ℕ
  | .exponential s, a, r => s.delay a r
  | .constant s, a, r => s.delay a r
  | .fibonacci s, a, r => s.delay a r

/-- `BackoffPolicy` delegation of `BackoffStrategy::should_retry`. -/
def BackoffPolicy.should_retry : BackoffPolicy → ℕ → Bool
  | .exponential s, a => s.should_retry a
  | .constant s, a => s.should_retry a
  | .fibonacci s, a => s.should_retry a

/-- `Policy` from `core/src/lib.rs`. -/
structure Policy where
  max_attempts : Fin 256
  base_delay_ms : ℕ
  multiplier : Fl
  max_delay_ms : ℕ

/-- `Policy::calculate_delay_with_rng`: normalizes the jitter factor
(NaN becomes full jitter 1.0, other values are clamped into `[0,1]`),
computes the capped exponential base and applies the jitter blend. -/
def Policy.calculate_delay_with_rng (p : Policy) (attempt : ℕ) (jitter_factor : Fl)
    (r : ℚ) : ℕ :=
  let j := if jitter_factor.isNan then Fl.val 1 else jitter_factor.clamp01
  let exponent := attempt - 1
  let baseExponential := (Fl.val (p.base_delay_ms : ℚ)).mul (p.multiplier.powi exponent)
  let capped := baseExponential.fmin (Fl.val (p.max_delay_ms : ℚ))
  (applyJitterFl capped j (Fl.val r)).toU64

/-- `Policy::should_retry`. -/
def Policy.should_retry (p : Policy) (current_attempt : ℕ) : Bool :=
  current_attempt < p.max_attempts.val

namespace FFI

/-- `normalize_jitter` from `ffi/src/lib.rs`: NaN maps to 1.0, other
values clamp into `[0.0, 1.0]`. -/
def normalize_jitter (jitter_factor : Fl) : Fl :=
  if jitter_factor.isNan then Fl.val 1 else jitter_factor.clamp01

/-- `apply_jitter` from `ffi/src/lib.rs`; the random scalar drawn from the
thread-local generator is the explicit argument `r`. -/
def apply_jitter (base jitter_factor : Fl) (r : ℚ) : Fl :=
  applyJitterFl base jitter_factor (Fl.val r)

/-- `fibonacci` from `ffi/src/lib.rs` (textually identical to the core
helper; both share the iterative saturating loop). -/
def fibonacci (n : ℕ) : ℕ :=
  if n = 0 then 0
  else if n ≤ 2 then 1
  else fibLoop (n - 2) 1 1

/-- `calculate_delay_exponential` from `ffi/src/lib.rs`: the attempt is an
`i64` clamped into `[1, 255]`; delays are in seconds and no truncation is
performed. -/
def calculate_delay_exponential (attempt : ℤ) (base_delay multiplier max_delay
    jitter_factor : Fl) (r : ℚ) : Fl :=
  let j := normalize_jitter jitter_factor
  let attempt_u8 : ℕ := (min (max attempt 1) 255).toNat
  let exponent := attempt_u8 - 1
  let baseExponential := base_delay.mul (multiplier.powi exponent)
  let capped := baseExponential.fmin max_delay
  apply_jitter capped j r

/-- `calculate_delay_constant` from `ffi/src/lib.rs`. -/
def calculate_delay_constant (_attempt : ℤ) (delay jitter_factor : Fl) (r : ℚ) : Fl :=
  apply_jitter delay (normalize_jitter jitter_factor) r

/-- `calculate_delay_fibonacci` from `ffi/src/lib.rs`. -/
def calculate_delay_fibonacci (attempt : ℤ) (base_delay max_delay jitter_factor : Fl)
    (r : ℚ) : Fl :=
  let j := normalize_jitter jitter_factor
  let attempt_u8 : ℕ := (min (max attempt 1) 255).toNat
  let base := (base_delay.mul (Fl.val (fibonacci attempt_u8 : ℚ))).fmin max_delay
  apply_jitter base j r

end FFI

/-- `RetryErrorKind` from `retry.rs`. -/
inductive RetryErrorKind where
  | exhausted : RetryErrorKind
  | predicateRejected : RetryErrorKind
deriving DecidableEq

/-- `RetryError` from `retry.rs`. -/
structure RetryError (E : Type) where
  kind : RetryErrorKind
  attempts : ℕ
  max_attempts : ℕ
  cumulative_delay_ms : ℕ
  cause : Option E
deriving DecidableEq

/-- `RetryOutcome` from `retry.rs`. -/
structure RetryOutcome (T : Type) where
  value : T
  attempts : ℕ
  cumulative_delay_ms : ℕ
deriving DecidableEq

/-- `RetryContext` from `retry.rs`; the borrowed error reference is
modelled by value. -/
structure RetryContext (E : Type) where
  attempt : ℕ
  next_delay_ms : Option ℕ
  cumulative_delay_ms : ℕ
  error : Option E
deriving DecidableEq

/-- View of a `BackoffStrategy` trait object: the three operations the
engine consults.  The random scalar drawn for a `delay` call is passed
explicitly. -/
structure Strategy where
  delay : ℕ → ℚ → Option ℕ
  should_retry : ℕ → Bool
  max_attempts : ℕ

/-- The `BackoffStrategy` implementation of `BackoffPolicy` (and of each
concrete strategy), packaged for the engine. -/
def BackoffPolicy.toStrategy (p : BackoffPolicy) : Strategy :=
  ⟨p.delay, p.should_retry, p.max_attempts.val⟩

@[simp] lemma BackoffPolicy.toStrategy_delay (p : BackoffPolicy) :
    p.toStrategy.delay = p.delay := rfl

@[simp] lemma BackoffPolicy.toStrategy_should_retry (p : BackoffPolicy) :
    p.toStrategy.should_retry = p.should_retry := rfl

@[simp] lemma BackoffPolicy.toStrategy_max_attempts (p : BackoffPolicy) :
    p.toStrategy.max_attempts = p.max_attempts.val := rfl

/-- The engine rejects an error when a predicate is configured and it
returns `false` on the error (`if let Some(ref predicate) = self.when &&
!predicate(&error)`). -/
def rejected {E : Type} (pred : Option (E → Bool)) (e : E) : Bool :=
  match pred with
  | some p => !(p e)
  | none => false

/-- Observable behaviour of one `call_with_sleeper` run: the returned
result, the contexts passed to the notify callback in order, the delays
handed to the sleeper in order, and the number of operation invocations. -/
structure RunOutput (T E : Type) where
  result : Except (RetryError E) (RetryOutcome T)
  notifications : List (RetryContext E)
  sleeps : List ℕ
  invocations : ℕ

/-- Loop body of `RetryBuilder::call_with_sleeper`, fuel-indexed.
`op k` is the result of the operation invocation when `k` invocations
already happened; `rng k` is the random scalar drawn for the delay
computation of that iteration; `attempt` and `cum` are the saturating
`u8` / `u64` counters of the source; `notifs` and `sleeps` accumulate the
observable callback and sleeper traces. -/
def runRetryAux {T E : Type} (op : ℕ → Except E T) (s : Strategy)
    (pred : Option (E → Bool)) (rng : ℕ → ℚ) :
    ℕ → ℕ → ℕ → ℕ → List (RetryContext E) → List ℕ → Option (RunOutput T E)
  | 0, _, _, _, _, _ => none
  | fuel + 1, attempt, k, cum, notifs, sleeps =>
    match op k with
    | Except.ok v =>
      some ⟨Except.ok ⟨v, attempt, cum⟩, notifs, sleeps, k + 1⟩
    | Except.error e =>
      if rejected pred e then
        some ⟨Except.error ⟨RetryErrorKind.predicateRejected, attempt, s.max_attempts,
          cum, some e⟩, notifs, sleeps, k + 1⟩
      else if s.should_retry attempt then
        match s.delay attempt (rng k) with
        | some d =>
          runRetryAux op s pred rng fuel (satAdd8 attempt 1) (k + 1) (satAdd64 cum d)
            (notifs ++ [⟨attempt, some d, cum, some e⟩]) (sleeps ++ [d])
        | none =>
          some ⟨Except.error ⟨RetryErrorKind.exhausted, attempt, s.max_attempts,
            cum, some e⟩, notifs, sleeps, k + 1⟩
      else
        some ⟨Except.error ⟨RetryErrorKind.exhausted, attempt, s.max_attempts,
          cum, some e⟩, notifs, sleeps, k + 1⟩

/-- `RetryBuilder::call_with_sleeper`: the loop starts at `attempt = 1`
with zero cumulative delay.  The fuel 256 is enough for every strategy
whose `max_attempts` fits in a `u8`, which the type system of the source
guarantees; `none` would mean the pathological non-terminating case. -/
def callWithSleeper {T E : Type} (op : ℕ → Except E T) (s : Strategy)
    (pred : Option (E → Bool)) (rng : ℕ → ℚ) : Option (RunOutput T E) :=
  runRetryAux op s pred rng 256 1 0 0 [] []

/-- Attempt count carried by the terminal result, on either branch. -/
def resultAttempts {T E : Type} : Except (RetryError E) (RetryOutcome T) → ℕ
  | Except.ok o => o.attempts
  | Except.error e => e.attempts

section StepLemmas

variable {T E : Type} (op : ℕ → Except E T) (s : Strategy) (pred : Option (E → Bool))
  (rng : ℕ → ℚ)

lemma runRetryAux_ok {v : T} {k : ℕ} (h : op k = Except.ok v)
    (fuel a c : ℕ) (ns : List (RetryContext E)) (ss : List ℕ) :
    runRetryAux op s pred rng (fuel + 1) a k c ns ss =
      some ⟨Except.ok ⟨v, a, c⟩, ns, ss, k + 1⟩ := by
  simp [runRetryAux, h]

lemma runRetryAux_rejected {e : E} {k : ℕ} (he : op k = Except.error e)
    (hr : rejected pred e = true)
    (fuel a c : ℕ) (ns : List (RetryContext E)) (ss : List ℕ) :
    runRetryAux op s pred rng (fuel + 1) a k c ns ss =
      some ⟨Except.error ⟨RetryErrorKind.predicateRejected, a, s.max_attempts, c, some e⟩,
        ns, ss, k + 1⟩ := by
  simp [runRetryAux, he, hr]

lemma runRetryAux_noretry {e : E} {k : ℕ} (he : op k = Except.error e)
    (hr : rejected pred e = false) {a : ℕ} (hs : s.should_retry a = false)
    (fuel c : ℕ) (ns : List (RetryContext E)) (ss : List ℕ) :
    runRetryAux op s pred rng (fuel + 1) a k c ns ss =
      some ⟨Except.error ⟨RetryErrorKind.exhausted, a, s.max_attempts, c, some e⟩,
        ns, ss, k + 1⟩ := by
  simp [runRetryAux, he, hr, hs]

lemma runRetryAux_delayNone {e : E} {k : ℕ} (he : op k = Except.error e)
    (hr : rejected pred e = false) {a : ℕ} (hs : s.should_retry a = true)
    (hd : s.delay a (rng k) = none)
    (fuel c : ℕ) (ns : List (RetryContext E)) (ss : List ℕ) :
    runRetryAux op s pred rng (fuel + 1) a k c ns ss =
      some ⟨Except.error ⟨RetryErrorKind.exhausted, a, s.max_attempts, c, some e⟩,
        ns, ss, k + 1⟩ := by
  simp [runRetryAux, he, hr, hs, hd]

lemma runRetryAux_step {e : E} {k : ℕ} (he : op k = Except.error e)
    (hr : rejected pred e = false) {a : ℕ} (hs : s.should_retry a = true)
    {d : ℕ} (hd : s.delay a (rng k) = some d)
    (fuel c : ℕ) (ns : List (RetryContext E)) (ss : List ℕ) :
    runRetryAux op s pred rng (fuel + 1) a k c ns ss =
      runRetryAux op s pred rng fuel (satAdd8 a 1) (k + 1) (satAdd64 c d)
        (ns ++ [⟨a, some d, c, some e⟩]) (ss ++ [d]) := by
  simp [runRetryAux, he, hr, hs, hd]

end StepLemmas

section StrategyLemmas

lemma ExponentialBackoff.expDelay_none_iff (s : ExponentialBackoff) (a : ℕ) (r : ℚ) :
    s.delay a r = none ↔ s.max_attempts.val ≤ a := by
  unfold ExponentialBackoff.delay
  split <;> simp_all

lemma ConstantBackoff.constDelay_none_iff (s : ConstantBackoff) (a : ℕ) (r : ℚ) :
    s.delay a r = none ↔ s.max_attempts.val ≤ a := by
  unfold ConstantBackoff.delay
  split <;> simp_all

lemma FibonacciBackoff.fibDelay_none_iff (s : FibonacciBackoff) (a : ℕ) (r : ℚ) :
    s.delay a r = none ↔ s.max_attempts.val ≤ a := by
  unfold FibonacciBackoff.delay
  split <;> simp_all

lemma BackoffPolicy.policyDelay_none_iff (p : BackoffPolicy) (a : ℕ) (r : ℚ) :
    p.delay a r = none ↔ p.max_attempts.val ≤ a := by
  cases p with
  | exponential s => exact ExponentialBackoff.expDelay_none_iff s a r
  | constant s => exact ConstantBackoff.constDelay_none_iff s a r
  | fibonacci s => exact FibonacciBackoff.fibDelay_none_iff s a r

lemma BackoffPolicy.should_retry_eq (p : BackoffPolicy) (a : ℕ) :
    p.should_retry a = decide (a < p.max_attempts.val) := by
  cases p <;> rfl

lemma BackoffPolicy.delay_isSome_of_lt (p : BackoffPolicy) (a : ℕ) (r : ℚ)
    (h : a < p.max_attempts.val) :
    ∃ d, p.delay a r = some d ∧ d ≤ U64MAX := by
  cases p with
  | exponential s =>
    have hne : ¬ s.max_attempts.val ≤ a := Nat.not_le.2 (by simpa [BackoffPolicy.max_attempts] using h)
    simp only [BackoffPolicy.delay, ExponentialBackoff.delay, if_neg hne]
    exact ⟨_, rfl, Fl.toU64_le_U64MAX _⟩
  | constant s =>
    have hne : ¬ s.max_attempts.val ≤ a := Nat.not_le.2 (by simpa [BackoffPolicy.max_attempts] using h)
    simp only [BackoffPolicy.delay, ConstantBackoff.delay, if_neg hne]
    exact ⟨_, rfl, Fl.toU64_le_U64MAX _⟩
  | fibonacci s =>
    have hne : ¬ s.max_attempts.val ≤ a := Nat.not_le.2 (by simpa [BackoffPolicy.max_attempts] using h)
    simp only [BackoffPolicy.delay, FibonacciBackoff.delay, if_neg hne]
    exact ⟨_, rfl, Fl.toU64_le_U64MAX _⟩

lemma clamp01_zero : Fl.clamp01 (Fl.val 0) = Fl.val 0 := by
  norm_num [Fl.clamp01]

lemma jitterBlend_zero (r : ℚ) : jitterBlend (Fl.val 0) (Fl.val r) = Fl.val 1 := by
  simp [jitterBlend]

lemma applyJitterFl_zeroJ (b r : ℚ) :
    applyJitterFl (Fl.val b) (Fl.val 0) (Fl.val r) = Fl.val b := by
  simp [applyJitterFl, jitterBlend_zero]

lemma ConstantBackoff.constDelay_noJitter (d : ℕ) (m : Fin 256) (a : ℕ) (r : ℚ)
    (h : a < m.val) :
    ConstantBackoff.delay ⟨d, m, Fl.val 0⟩ a r = some (min d U64MAX) := by
  unfold ConstantBackoff.delay
  rw [if_neg (by simpa using Nat.not_le.2 h)]
  simp only [clamp01_zero, applyJitterFl_zeroJ]
  simp [Fl.toU64, Int.floor_natCast]

lemma FibonacciBackoff.fibDelay_noJitter (bd md : ℕ) (m : Fin 256) (a : ℕ) (r : ℚ)
    (h : a < m.val) :
    FibonacciBackoff.delay ⟨bd, md, m, Fl.val 0⟩ a r =
      some (min (min (bd * FibonacciBackoff.fibonacci a) md) U64MAX) := by
  unfold FibonacciBackoff.delay
  rw [if_neg (by simpa using Nat.not_le.2 h)]
  simp only [Fl.mul_val, Fl.fmin_val, clamp01_zero, applyJitterFl_zeroJ]
  have hcast : (min ((bd : ℚ) * (FibonacciBackoff.fibonacci a : ℚ)) (md : ℚ)) =
      ((min (bd * FibonacciBackoff.fibonacci a) md : ℕ) : ℚ) := by
    push_cast
    rfl
  simp only [Fl.toU64, hcast, Int.floor_natCast, Int.toNat_natCast]

end StrategyLemmas

section EngineLemmas

variable {T E : Type}

/-- For an operation that always fails with predicate-accepted errors and a
lawful bounded strategy, the loop runs to exhaustion: it stops at
`max attempt max_attempts` with one invocation per visited attempt. -/
lemma runRetryAux_alwaysFail (op : ℕ → Except E T) (s : Strategy)
    (pred : Option (E → Bool)) (rng : ℕ → ℚ)
    (hop : ∀ k, ∃ e, op k = Except.error e ∧ rejected pred e = false)
    (hsr : ∀ a, s.should_retry a = decide (a < s.max_attempts))
    (hdelay : ∀ a r, a < s.max_attempts → ∃ d, s.delay a r = some d)
    (hmax : s.max_attempts ≤ 255) :
    ∀ (fuel attempt k cum : ℕ) (notifs : List (RetryContext E)) (sleeps : List ℕ),
      1 ≤ attempt → s.max_attempts + 1 ≤ fuel + attempt → 1 ≤ fuel →
      ∃ out, runRetryAux op s pred rng fuel attempt k cum notifs sleeps = some out ∧
        ∃ e cum2, out.result = Except.error
            ⟨RetryErrorKind.exhausted, max attempt s.max_attempts, s.max_attempts, cum2, some e⟩ ∧
          out.invocations = k + 1 + (s.max_attempts - attempt) := by
  intro fuel
  induction fuel with
  | zero => intro attempt k cum notifs sleeps _ _ hf; omega
  | succ n ih =>
    intro attempt k cum notifs sleeps ha hfa _
    obtain ⟨e, he, hre⟩ := hop k
    by_cases hlt : attempt < s.max_attempts
    · have hs : s.should_retry attempt = true := by
        rw [hsr]; simpa using hlt
      obtain ⟨d, hd⟩ := hdelay attempt (rng k) hlt
      rw [runRetryAux_step op s pred rng he hre hs hd]
      have hsat : satAdd8 attempt 1 = attempt + 1 := by
        unfold satAdd8; omega
      rw [hsat]
      obtain ⟨out, hrun, e2, cum2, hres, hinv⟩ :=
        ih (attempt + 1) (k + 1) (satAdd64 cum d)
          (notifs ++ [⟨attempt, some d, cum, some e⟩]) (sleeps ++ [d])
          (by omega) (by omega) (by omega)
      refine ⟨out, hrun, e2, cum2, ?_, by omega⟩
      have hmaxeq : max (attempt + 1) s.max_attempts = max attempt s.max_attempts := by omega
      rw [← hmaxeq]
      exact hres
    · have hs : s.should_retry attempt = false := by
        rw [hsr]; simpa using hlt
      rw [runRetryAux_noretry op s pred rng he hre hs]
      refine ⟨_, rfl, e, cum, ?_, by simp; omega⟩
      have : max attempt s.max_attempts = attempt := by omega
      rw [this]

/-- For a lawful bounded strategy, the loop always terminates within the
fuel and the reported attempt count equals the number of invocations. -/
lemma runRetryAux_attempts_invocations (op : ℕ → Except E T) (s : Strategy)
    (pred : Option (E → Bool)) (rng : ℕ → ℚ)
    (hsr : ∀ a, s.should_retry a = decide (a < s.max_attempts))
    (hmax : s.max_attempts ≤ 255) :
    ∀ (fuel attempt k cum : ℕ) (notifs : List (RetryContext E)) (sleeps : List ℕ),
      attempt = k + 1 → s.max_attempts + 1 ≤ fuel + attempt → 1 ≤ fuel →
      ∃ out, runRetryAux op s pred rng fuel attempt k cum notifs sleeps = some out ∧
        resultAttempts out.result = out.invocations ∧ k + 1 ≤ out.invocations := by
  intro fuel
  induction fuel with
  | zero => intro attempt k cum notifs sleeps _ _ hf; omega
  | succ n ih =>
    intro attempt k cum notifs sleeps hak hfa _
    cases hok : op k with
    | ok v =>
      rw [runRetryAux_ok op s pred rng hok]
      exact ⟨_, rfl, by simpa [resultAttempts] using hak, by simp⟩
    | error e =>
      cases hre : rejected pred e with
      | true =>
        rw [runRetryAux_rejected op s pred rng hok hre]
        exact ⟨_, rfl, by simpa [resultAttempts] using hak, by simp⟩
      | false =>
        by_cases hlt : attempt < s.max_attempts
        · have hs : s.should_retry attempt = true := by
            rw [hsr]; simpa using hlt
          cases hd : s.delay attempt (rng k) with
          | none =>
            rw [runRetryAux_delayNone op s pred rng hok hre hs hd]
            exact ⟨_, rfl, by simpa [resultAttempts] using hak, by simp⟩
          | some d =>
            rw [runRetryAux_step op s pred rng hok hre hs hd]
            have hsat : satAdd8 attempt 1 = attempt + 1 := by
              unfold satAdd8; omega
            rw [hsat]
            obtain ⟨out, hrun, hres, hinv⟩ :=
              ih (attempt + 1) (k + 1) (satAdd64 cum d)
                (notifs ++ [⟨attempt, some d, cum, some e⟩]) (sleeps ++ [d])
                (by omega) (by omega) (by omega)
            exact ⟨out, hrun, hres, by omega⟩
        · have hs : s.should_retry attempt = false := by
            rw [hsr]; simpa using hlt
          rw [runRetryAux_noretry op s pred rng hok hre hs]
          exact ⟨_, rfl, by simpa [resultAttempts] using hak, by simp⟩

end EngineLemmas

section Claims

/-- Claim C1: an operation whose every invocation fails with an error the
predicate (if any) accepts, run under a library strategy with
`max_attempts = n`, terminates with `kind = Exhausted`, a present cause,
`attempts = n` when `n ≥ 1`, and for `n = 0` it fails on the very first
attempt after exactly one invocation (no crash); uniformly the attempt
count and invocation count are `max 1 n`. -/
theorem claim_c1_always_fail_exhausts {T E : Type} (op : ℕ → Except E T)
    (pred : Option (E → Bool)) (rng : ℕ → ℚ) (p : BackoffPolicy) (n : ℕ)
    (hn : p.max_attempts.val = n)
    (hop : ∀ k, ∃ e, op k = Except.error e ∧ rejected pred e = false) :
    ∃ out, callWithSleeper op p.toStrategy pred rng = some out ∧
      ∃ e cum, out.result = Except.error
          ⟨RetryErrorKind.exhausted, max 1 n, n, cum, some e⟩ ∧
        out.invocations = max 1 n := by
  have hsr : ∀ a, p.toStrategy.should_retry a = decide (a < p.toStrategy.max_attempts) :=
    fun a => BackoffPolicy.should_retry_eq p a
  have hdelay : ∀ a r, a < p.toStrategy.max_attempts → ∃ d, p.toStrategy.delay a r = some d := by
    intro a r h
    obtain ⟨d, hd, _⟩ := BackoffPolicy.delay_isSome_of_lt p a r h
    exact ⟨d, hd⟩
  have hmax : p.toStrategy.max_attempts ≤ 255 := by
    have := p.max_attempts.isLt
    simp only [BackoffPolicy.toStrategy]
    omega
  obtain ⟨out, hrun, e, cum, hres, hinv⟩ :=
    runRetryAux_alwaysFail op p.toStrategy pred rng hop hsr hdelay hmax
      256 1 0 0 [] [] (by omega) (by omega) (by omega)
  refine ⟨out, hrun, e, cum, ?_, ?_⟩
  · have h1 : max 1 p.toStrategy.max_attempts = max 1 n := by
      simp only [BackoffPolicy.toStrategy]; omega
    have h2 : p.toStrategy.max_attempts = n := by
      simp only [BackoffPolicy.toStrategy]; omega
    rw [h1, h2] at hres
    exact hres
  · have : p.toStrategy.max_attempts = n := by
      simp only [BackoffPolicy.toStrategy]; omega
    omega

/-- Witness for C1 at a concrete always-failing operation under a constant
strategy with two attempts. -/
theorem claim_c1_witness :
    ∃ out, callWithSleeper (fun _ => (Except.error () : Except Unit Unit))
        (BackoffPolicy.constant ⟨5, 2, Fl.val 0⟩).toStrategy none (fun _ => 0) = some out ∧
      ∃ e cum, out.result = Except.error
          ⟨RetryErrorKind.exhausted, max 1 2, 2, cum, some e⟩ ∧
        out.invocations = max 1 2 :=
  claim_c1_always_fail_exhausts _ none _ (BackoffPolicy.constant ⟨5, 2, Fl.val 0⟩) 2 rfl
    (fun _ => ⟨(), rfl, rfl⟩)

/-- Claim C2: a first failure rejected by the configured predicate makes
`call_with_sleeper` return immediately with `kind = PredicateRejected`,
`attempts = 1`, zero cumulative delay and the rejected error surfaced as
the cause, after exactly one invocation, with no notification and no
sleep, for every strategy whatsoever (neither `should_retry` nor `delay`
is consulted; only the `max_attempts` accessor appears, in the error
metadata). -/
theorem claim_c2_predicate_short_circuit {T E : Type} (op : ℕ → Except E T)
    (P : E → Bool) (rng : ℕ → ℚ) (e : E)
    (h0 : op 0 = Except.error e) (hP : P e = false) :
    ∀ s : Strategy, callWithSleeper op s (some P) rng =
      some ⟨Except.error ⟨RetryErrorKind.predicateRejected, 1, s.max_attempts, 0, some e⟩,
        [], [], 1⟩ := by
  intro s
  have hr : rejected (some P) e = true := by simp [rejected, hP]
  unfold callWithSleeper
  rw [show (256 : ℕ) = 255 + 1 from rfl, runRetryAux_rejected op s (some P) rng h0 hr]

/-- Witness for C2 at a concrete operation, predicate and strategy. -/
theorem claim_c2_witness :
    callWithSleeper (fun _ => (Except.error () : Except Unit Unit))
        (BackoffPolicy.constant ⟨5, 7, Fl.val 0⟩).toStrategy (some (fun _ => false))
        (fun _ => 0) =
      some ⟨Except.error ⟨RetryErrorKind.predicateRejected, 1,
          (BackoffPolicy.constant ⟨5, 7, Fl.val 0⟩).toStrategy.max_attempts, 0, some ()⟩,
        [], [], 1⟩ :=
  claim_c2_predicate_short_circuit _ _ _ () rfl rfl _

/-- Claim C10: for every library strategy, operation, predicate and random
stream, the run terminates and the attempt count carried by the terminal
result — on the success and on the failure branch alike — equals the exact
number of operation invocations, which is at least one. -/
theorem claim_c10_attempts_equal_invocations {T E : Type} (op : ℕ → Except E T)
    (pred : Option (E → Bool)) (rng : ℕ → ℚ) (p : BackoffPolicy) :
    ∃ out, callWithSleeper op p.toStrategy pred rng = some out ∧
      resultAttempts out.result = out.invocations ∧ 1 ≤ out.invocations := by
  have hsr : ∀ a, p.toStrategy.should_retry a = decide (a < p.toStrategy.max_attempts) :=
    fun a => BackoffPolicy.should_retry_eq p a
  have hmax : p.toStrategy.max_attempts ≤ 255 := by
    have := p.max_attempts.isLt
    simp only [BackoffPolicy.toStrategy]
    omega
  obtain ⟨out, hrun, hres, hinv⟩ :=
    runRetryAux_attempts_invocations op p.toStrategy pred rng hsr hmax
      256 1 0 0 [] [] rfl (by omega) (by omega)
  exact ⟨out, hrun, hres, hinv⟩

/-- Every delay a library strategy emits fits in a `u64`. -/
lemma BackoffPolicy.delay_le_U64MAX (p : BackoffPolicy) (a : ℕ) (r : ℚ) (d : ℕ)
    (h : p.delay a r = some d) : d ≤ U64MAX := by
  cases p with
  | exponential s =>
    simp only [BackoffPolicy.delay, ExponentialBackoff.delay] at h
    split at h
    · exact absurd h (by simp)
    · obtain rfl : _ = d := Option.some_injective _ h
      exact Fl.toU64_le_U64MAX _
  | constant s =>
    simp only [BackoffPolicy.delay, ConstantBackoff.delay] at h
    split at h
    · exact absurd h (by simp)
    · obtain rfl : _ = d := Option.some_injective _ h
      exact Fl.toU64_le_U64MAX _
  | fibonacci s =>
    simp only [BackoffPolicy.delay, FibonacciBackoff.delay] at h
    split at h
    · exact absurd h (by simp)
    · obtain rfl : _ = d := Option.some_injective _ h
      exact Fl.toU64_le_U64MAX _

/-- Claim C3 (amended): an operation that fails twice and succeeds on the
third invocation, under a library strategy allowing at least three
attempts whose first two delays are `d₁` and `d₂`, yields
`attempts = 3` and a cumulative delay equal to the saturating `u64` sum
of `d₁` and `d₂` — which is the exact sum whenever that sum fits in a
`u64`. -/
theorem claim_c3_fail_twice_succeed {T E : Type} (op : ℕ → Except E T)
    (pred : Option (E → Bool)) (rng : ℕ → ℚ) (p : BackoffPolicy)
    (e₀ e₁ : E) (v : T) (d₁ d₂ : ℕ)
    (h0 : op 0 = Except.error e₀) (h1 : op 1 = Except.error e₁)
    (h2 : op 2 = Except.ok v)
    (hr0 : rejected pred e₀ = false) (hr1 : rejected pred e₁ = false)
    (hmax : 3 ≤ p.max_attempts.val)
    (hd1 : p.delay 1 (rng 0) = some d₁) (hd2 : p.delay 2 (rng 1) = some d₂) :
    ∃ out, callWithSleeper op p.toStrategy pred rng = some out ∧
      out.result = Except.ok ⟨v, 3, satAdd64 d₁ d₂⟩ ∧
      (d₁ + d₂ ≤ U64MAX → satAdd64 d₁ d₂ = d₁ + d₂) := by
  have hle1 : d₁ ≤ U64MAX := BackoffPolicy.delay_le_U64MAX p 1 (rng 0) d₁ hd1
  have hs1 : p.toStrategy.should_retry 1 = true := by
    rw [BackoffPolicy.toStrategy_should_retry, BackoffPolicy.should_retry_eq]
    simp; omega
  have hs2 : p.toStrategy.should_retry 2 = true := by
    rw [BackoffPolicy.toStrategy_should_retry, BackoffPolicy.should_retry_eq]
    simp; omega
  unfold callWithSleeper
  rw [show (256 : ℕ) = 255 + 1 from rfl,
    runRetryAux_step op p.toStrategy pred rng h0 hr0 hs1 hd1,
    show satAdd8 1 1 = 2 by unfold satAdd8; omega,
    show satAdd64 0 d₁ = d₁ by unfold satAdd64; omega,
    show (255 : ℕ) = 254 + 1 from rfl,
    runRetryAux_step op p.toStrategy pred rng h1 hr1 hs2 hd2,
    show satAdd8 2 1 = 3 by unfold satAdd8; omega,
    show (254 : ℕ) = 253 + 1 from rfl,
    runRetryAux_ok op p.toStrategy pred rng h2]
  exact ⟨_, rfl, rfl, fun h => by unfold satAdd64; omega⟩

/-- Witness for C3 at a concrete fail-fail-succeed operation under a
constant 10 ms strategy. -/
theorem claim_c3_witness :
    ∃ out, callWithSleeper
        (fun k => if k < 2 then (Except.error () : Except Unit Unit) else Except.ok ())
        (BackoffPolicy.constant ⟨10, 5, Fl.val 0⟩).toStrategy none (fun _ => 0) = some out ∧
      out.result = Except.ok ⟨(), 3, satAdd64 10 10⟩ ∧
      (10 + 10 ≤ U64MAX → satAdd64 10 10 = 10 + 10) := by
  have hd : ∀ a : ℕ, a < 5 →
      (BackoffPolicy.constant ⟨10, 5, Fl.val 0⟩).delay a 0 = some 10 := by
    intro a ha
    have h5 : a < (5 : Fin 256).val := by simpa using ha
    simp only [BackoffPolicy.delay]
    rw [ConstantBackoff.constDelay_noJitter 10 5 a 0 h5]
    norm_num [U64MAX]
  exact claim_c3_fail_twice_succeed _ none _ (BackoffPolicy.constant ⟨10, 5, Fl.val 0⟩)
    () () () 10 10 rfl rfl rfl rfl rfl (by decide) (hd 1 (by norm_num)) (hd 2 (by norm_num))

/-- Counterexample for C3 as frozen: with a no-jitter constant strategy
whose delay is `u64::MAX`, an operation failing twice then succeeding
yields a cumulative delay of `u64::MAX` (the saturating sum), not the
exact sum `delay(1) + delay(2)` of the two delays the strategy produced. -/
theorem claim_c3_counterexample :
    ∃ out, callWithSleeper
        (fun k => if k < 2 then (Except.error () : Except Unit Unit) else Except.ok ())
        (BackoffPolicy.constant ⟨U64MAX, 3, Fl.val 0⟩).toStrategy none (fun _ => 0) = some out ∧
      (BackoffPolicy.constant ⟨U64MAX, 3, Fl.val 0⟩).delay 1 0 = some U64MAX ∧
      (BackoffPolicy.constant ⟨U64MAX, 3, Fl.val 0⟩).delay 2 0 = some U64MAX ∧
      out.result = Except.ok ⟨(), 3, U64MAX⟩ ∧
      U64MAX ≠ U64MAX + U64MAX := by
  have hd : ∀ a : ℕ, a < 3 →
      (BackoffPolicy.constant ⟨U64MAX, 3, Fl.val 0⟩).delay a 0 = some U64MAX := by
    intro a ha
    have h3 : a < (3 : Fin 256).val := by simpa using ha
    simp only [BackoffPolicy.delay]
    rw [ConstantBackoff.constDelay_noJitter U64MAX 3 a 0 h3]
    simp
  have hs1 : (BackoffPolicy.constant ⟨U64MAX, 3, Fl.val 0⟩).toStrategy.should_retry 1 = true := by
    rw [BackoffPolicy.toStrategy_should_retry, BackoffPolicy.should_retry_eq]; decide
  have hs2 : (BackoffPolicy.constant ⟨U64MAX, 3, Fl.val 0⟩).toStrategy.should_retry 2 = true := by
    rw [BackoffPolicy.toStrategy_should_retry, BackoffPolicy.should_retry_eq]; decide
  have e8 : satAdd8 1 1 = 2 := by unfold satAdd8; omega
  have e8b : satAdd8 2 1 = 3 := by unfold satAdd8; omega
  have e64a : satAdd64 0 U64MAX = U64MAX := by simp [satAdd64]
  have e64b : satAdd64 U64MAX U64MAX = U64MAX := by unfold satAdd64; omega
  have hrun : callWithSleeper
      (fun k => if k < 2 then (Except.error () : Except Unit Unit) else Except.ok ())
      (BackoffPolicy.constant ⟨U64MAX, 3, Fl.val 0⟩).toStrategy none (fun _ => 0) =
      some ⟨Except.ok ⟨(), 3, U64MAX⟩,
        [⟨1, some U64MAX, 0, some ()⟩, ⟨2, some U64MAX, U64MAX, some ()⟩],
        [U64MAX, U64MAX], 3⟩ := by
    have st1 := runRetryAux_step
      (fun k => if k < 2 then (Except.error () : Except Unit Unit) else Except.ok ())
      (BackoffPolicy.constant ⟨U64MAX, 3, Fl.val 0⟩).toStrategy none (fun _ => 0)
      (k := 0) rfl rfl hs1 (hd 1 (by norm_num)) 255 0 [] []
    have st2 := runRetryAux_step
      (fun k => if k < 2 then (Except.error () : Except Unit Unit) else Except.ok ())
      (BackoffPolicy.constant ⟨U64MAX, 3, Fl.val 0⟩).toStrategy none (fun _ => 0)
      (k := 1) rfl rfl hs2 (hd 2 (by norm_num)) 254 U64MAX
      [⟨1, some U64MAX, 0, some ()⟩] [U64MAX]
    have st3 := runRetryAux_ok
      (fun k => if k < 2 then (Except.error () : Except Unit Unit) else Except.ok ())
      (BackoffPolicy.constant ⟨U64MAX, 3, Fl.val 0⟩).toStrategy none (fun _ => 0)
      (v := ()) (k := 2) rfl 253 3 U64MAX
      [⟨1, some U64MAX, 0, some ()⟩, ⟨2, some U64MAX, U64MAX, some ()⟩] [U64MAX, U64MAX]
    rw [e8, e64a] at st1
    rw [e8b, e64b] at st2
    simp only [List.nil_append, List.singleton_append] at st1 st2
    exact st1.trans (st2.trans st3)
  exact ⟨_, hrun, hd 1 (by norm_num), hd 2 (by norm_num), rfl, by simp [U64MAX]⟩

/-- Claim C4: for each of the three strategies and the `BackoffPolicy`
wrapper, `should_retry attempt` holds exactly when `attempt <
max_attempts`, and `delay` returns `none` exactly when the attempt has
reached or exceeded `max_attempts`; concretely, constant backoff with no
jitter, 500 ms delay and four attempts yields 500 ms for attempts 1–3 and
`none` for attempt 4. -/
theorem claim_c4_retry_window :
    (∀ (s : ExponentialBackoff) (a : ℕ) (r : ℚ),
      (s.should_retry a = true ↔ a < s.max_attempts.val) ∧
      (s.delay a r = none ↔ s.max_attempts.val ≤ a)) ∧
    (∀ (s : ConstantBackoff) (a : ℕ) (r : ℚ),
      (s.should_retry a = true ↔ a < s.max_attempts.val) ∧
      (s.delay a r = none ↔ s.max_attempts.val ≤ a)) ∧
    (∀ (s : FibonacciBackoff) (a : ℕ) (r : ℚ),
      (s.should_retry a = true ↔ a < s.max_attempts.val) ∧
      (s.delay a r = none ↔ s.max_attempts.val ≤ a)) ∧
    (∀ (p : BackoffPolicy) (a : ℕ) (r : ℚ),
      (p.should_retry a = true ↔ a < p.max_attempts.val) ∧
      (p.delay a r = none ↔ p.max_attempts.val ≤ a)) ∧
    (∀ r : ℚ,
      ConstantBackoff.delay ⟨500, 4, Fl.val 0⟩ 1 r = some 500 ∧
      ConstantBackoff.delay ⟨500, 4, Fl.val 0⟩ 2 r = some 500 ∧
      ConstantBackoff.delay ⟨500, 4, Fl.val 0⟩ 3 r = some 500 ∧
      ConstantBackoff.delay ⟨500, 4, Fl.val 0⟩ 4 r = none) := by
  have hconc : ∀ (a : ℕ) (r : ℚ), a < 4 →
      ConstantBackoff.delay ⟨500, 4, Fl.val 0⟩ a r = some 500 := by
    intro a r ha
    rw [ConstantBackoff.constDelay_noJitter 500 4 a r (by simpa using ha)]
    norm_num [U64MAX]
  refine ⟨?_, ?_, ?_, ?_, ?_⟩
  · intro s a r
    exact ⟨by simp [ExponentialBackoff.should_retry], ExponentialBackoff.expDelay_none_iff s a r⟩
  · intro s a r
    exact ⟨by simp [ConstantBackoff.should_retry], ConstantBackoff.constDelay_none_iff s a r⟩
  · intro s a r
    exact ⟨by simp [FibonacciBackoff.should_retry], FibonacciBackoff.fibDelay_none_iff s a r⟩
  · intro p a r
    constructor
    · rw [BackoffPolicy.should_retry_eq]; simp
    · exact BackoffPolicy.policyDelay_none_iff p a r
  · intro r
    refine ⟨hconc 1 r (by norm_num), hconc 2 r (by norm_num), hconc 3 r (by norm_num), ?_⟩
    exact (ConstantBackoff.constDelay_none_iff _ 4 r).2 (by decide)

/-- Claim C5: for a jitter factor and random scalar in `[0,1]`, the blend
`1 - j + r * j` lies in `[1 - j, 1]`, and for a non-negative base the
jittered value is non-negative, at most the base, and the truncated delay
the strategies return never exceeds the unjittered base. -/
theorem claim_c5_jitter_never_exceeds_base (j r base : ℚ)
    (hj0 : 0 ≤ j) (hj1 : j ≤ 1) (hr0 : 0 ≤ r) (hr1 : r ≤ 1) :
    jitterBlend (Fl.val j) (Fl.val r) = Fl.val (1 - j + r * j) ∧
    1 - j ≤ 1 - j + r * j ∧ 1 - j + r * j ≤ 1 ∧
    (0 ≤ base →
      0 ≤ base * (1 - j + r * j) ∧ base * (1 - j + r * j) ≤ base ∧
      applyJitterFl (Fl.val base) (Fl.val j) (Fl.val r) = Fl.val (base * (1 - j + r * j)) ∧
      ((Fl.toU64 (applyJitterFl (Fl.val base) (Fl.val j) (Fl.val r)) : ℕ) : ℚ) ≤ base) := by
  have hrj : 0 ≤ r * j := mul_nonneg hr0 hj0
  have hblend1 : 1 - j + r * j ≤ 1 := by nlinarith
  have hblend0 : 0 ≤ 1 - j + r * j := by nlinarith
  refine ⟨by simp [jitterBlend], by linarith, hblend1, ?_⟩
  intro hb
  have happ : applyJitterFl (Fl.val base) (Fl.val j) (Fl.val r) =
      Fl.val (base * (1 - j + r * j)) := by
    simp [applyJitterFl, jitterBlend]
  have h0 : 0 ≤ base * (1 - j + r * j) := mul_nonneg hb hblend0
  have h1 : base * (1 - j + r * j) ≤ base := by nlinarith
  refine ⟨h0, h1, happ, ?_⟩
  rw [happ]
  exact le_trans (Fl.toU64_val_le _ h0) h1

/-- Witness for C5 at `j = 1/2`, `r = 1/2`, `base = 100`. -/
theorem claim_c5_witness :
    (0 : ℚ) ≤ 1 / 2 ∧
    (jitterBlend (Fl.val (1 / 2)) (Fl.val (1 / 2)) =
        Fl.val ((1 : ℚ) - 1 / 2 + 1 / 2 * (1 / 2)) ∧
      (1 : ℚ) - 1 / 2 ≤ 1 - 1 / 2 + 1 / 2 * (1 / 2) ∧
      (1 : ℚ) - 1 / 2 + 1 / 2 * (1 / 2) ≤ 1 ∧
      ((0 : ℚ) ≤ 100 →
        (0 : ℚ) ≤ 100 * (1 - 1 / 2 + 1 / 2 * (1 / 2)) ∧
        (100 : ℚ) * (1 - 1 / 2 + 1 / 2 * (1 / 2)) ≤ 100 ∧
        applyJitterFl (Fl.val 100) (Fl.val (1 / 2)) (Fl.val (1 / 2)) =
          Fl.val ((100 : ℚ) * (1 - 1 / 2 + 1 / 2 * (1 / 2))) ∧
        ((Fl.toU64 (applyJitterFl (Fl.val 100) (Fl.val (1 / 2)) (Fl.val (1 / 2))) : ℕ) : ℚ) ≤
          100)) :=
  ⟨by norm_num,
    claim_c5_jitter_never_exceeds_base (1 / 2) (1 / 2) 100
      (by norm_num) (by norm_num) (by norm_num) (by norm_num)⟩

/-- Two-step unfolding of the iterative Fibonacci loop: each value is the
saturating sum of the previous two, whatever the seed pair. -/
lemma fibLoop_two_step : ∀ (k a b : ℕ),
    fibLoop (k + 2) a b = satAdd64 (fibLoop (k + 1) a b) (fibLoop k a b) := by
  intro k
  induction k with
  | zero =>
    intro a b
    show satAdd64 b (satAdd64 a b) = satAdd64 (satAdd64 a b) b
    unfold satAdd64
    omega
  | succ k ih =>
    intro a b
    show fibLoop (k + 2) b (satAdd64 a b) =
      satAdd64 (fibLoop (k + 1 + 1) a b) (fibLoop (k + 1) a b)
    rw [ih b (satAdd64 a b)]
    rfl

/-- The Fibonacci helper satisfies the saturating recurrence at every
index. -/
lemma fibonacci_add_two (n : ℕ) :
    FibonacciBackoff.fibonacci (n + 2) =
      satAdd64 (FibonacciBackoff.fibonacci (n + 1)) (FibonacciBackoff.fibonacci n) := by
  match n with
  | 0 =>
    show FibonacciBackoff.fibonacci 2 = satAdd64 (FibonacciBackoff.fibonacci 1)
      (FibonacciBackoff.fibonacci 0)
    norm_num [FibonacciBackoff.fibonacci, satAdd64, U64MAX]
  | 1 =>
    show FibonacciBackoff.fibonacci 3 = satAdd64 (FibonacciBackoff.fibonacci 2)
      (FibonacciBackoff.fibonacci 1)
    norm_num [FibonacciBackoff.fibonacci, fibLoop, satAdd64, U64MAX]
  | (m + 2) =>
    have hfib : ∀ n : ℕ, 2 ≤ n → FibonacciBackoff.fibonacci n = fibLoop (n - 2) 1 1 := by
      intro n hn
      rcases Nat.lt_or_ge n 3 with h3 | h3
      · have h2 : n = 2 := by omega
        subst h2
        rfl
      · unfold FibonacciBackoff.fibonacci
        rw [if_neg (show ¬ n = 0 by omega), if_neg (show ¬ n ≤ 2 by omega)]
    rw [hfib (m + 2 + 2) (by omega), hfib (m + 2 + 1) (by omega), hfib (m + 2) (by omega)]
    have h1 : m + 2 + 2 - 2 = m + 2 := by omega
    have h2 : m + 2 + 1 - 2 = m + 1 := by omega
    have h3 : m + 2 - 2 = m := by omega
    rw [h1, h2, h3]
    exact fibLoop_two_step m 1 1

/-- The no-jitter base of the Fibonacci strategy, for an arbitrary
configuration whose `max_delay_ms` is a real `u64`. -/
lemma FibonacciBackoff.delay_base (s : FibonacciBackoff) (a : ℕ) (r : ℚ)
    (hj : s.jitter_factor = Fl.val 0) (hmd : s.max_delay_ms ≤ U64MAX)
    (ha : a < s.max_attempts.val) :
    s.delay a r = some (min (s.base_delay_ms * FibonacciBackoff.fibonacci a) s.max_delay_ms) := by
  obtain ⟨bd, md, m, jf⟩ := s
  simp only at hj hmd ha
  subst hj
  rw [FibonacciBackoff.fibDelay_noJitter bd md m a r ha]
  dsimp only
  congr 1
  omega

/-- Claim C7: the Fibonacci helper has `fib 0 = 0`, `fib 1 = fib 2 = 1`
and satisfies the saturating recurrence `fib (n+2) = fib (n+1) +sat
fib n`; the unjittered base delay of the Fibonacci strategy at attempt `a`
is `min (base_delay_ms * fib a) max_delay_ms`; and with base 100 ms, no
jitter, five attempts (and the default 10 s cap) the delays are 100, 100,
200, 300 and then `none`. -/
theorem claim_c7_fibonacci_schedule :
    FibonacciBackoff.fibonacci 0 = 0 ∧
    FibonacciBackoff.fibonacci 1 = 1 ∧
    FibonacciBackoff.fibonacci 2 = 1 ∧
    (∀ n, FibonacciBackoff.fibonacci (n + 2) =
      satAdd64 (FibonacciBackoff.fibonacci (n + 1)) (FibonacciBackoff.fibonacci n)) ∧
    (∀ (s : FibonacciBackoff) (a : ℕ) (r : ℚ),
      s.jitter_factor = Fl.val 0 → s.max_delay_ms ≤ U64MAX → a < s.max_attempts.val →
      s.delay a r = some (min (s.base_delay_ms * FibonacciBackoff.fibonacci a) s.max_delay_ms)) ∧
    (∀ r : ℚ,
      FibonacciBackoff.delay ⟨100, 10000, 5, Fl.val 0⟩ 1 r = some 100 ∧
      FibonacciBackoff.delay ⟨100, 10000, 5, Fl.val 0⟩ 2 r = some 100 ∧
      FibonacciBackoff.delay ⟨100, 10000, 5, Fl.val 0⟩ 3 r = some 200 ∧
      FibonacciBackoff.delay ⟨100, 10000, 5, Fl.val 0⟩ 4 r = some 300 ∧
      FibonacciBackoff.delay ⟨100, 10000, 5, Fl.val 0⟩ 5 r = none) := by
  have hconc : ∀ (a : ℕ) (r : ℚ), a < 5 →
      FibonacciBackoff.delay ⟨100, 10000, 5, Fl.val 0⟩ a r =
        some (min (min (100 * FibonacciBackoff.fibonacci a) 10000) U64MAX) := by
    intro a r ha
    exact FibonacciBackoff.fibDelay_noJitter 100 10000 5 a r (by simpa using ha)
  refine ⟨rfl, rfl, rfl, fibonacci_add_two, FibonacciBackoff.delay_base, ?_⟩
  intro r
  refine ⟨?_, ?_, ?_, ?_, ?_⟩
  · rw [hconc 1 r (by norm_num)]; decide
  · rw [hconc 2 r (by norm_num)]; decide
  · rw [hconc 3 r (by norm_num)]; decide
  · rw [hconc 4 r (by norm_num)]; decide
  · exact (FibonacciBackoff.fibDelay_none_iff _ 5 r).2 (by decide)

/-- Witness for C7: the general base formula evaluated at attempt 3 of the
concrete 100 ms configuration. -/
theorem claim_c7_witness :
    FibonacciBackoff.delay ⟨100, 10000, 5, Fl.val 0⟩ 3 0 =
      some (min (100 * FibonacciBackoff.fibonacci 3) 10000) :=
  claim_c7_fibonacci_schedule.2.2.2.2.1 ⟨100, 10000, 5, Fl.val 0⟩ 3 0 rfl
    (by norm_num [U64MAX]) (by decide)

lemma clamp01_bounds (q : ℚ) : 0 ≤ min 1 (max 0 q) ∧ min 1 (max 0 q) ≤ 1 :=
  ⟨le_min (by norm_num) (le_max_left 0 q), min_le_left 1 (max 0 q)⟩

lemma clamp01_of_mem (q : ℚ) (h0 : 0 ≤ q) (h1 : q ≤ 1) :
    Fl.clamp01 (Fl.val q) = Fl.val q := by
  simp [Fl.clamp01, max_eq_right h0, min_eq_right h1]

/-- A strategy whose stored jitter factor is NaN computes a NaN blend and
hence a zero delay (the `as u64` cast of NaN), for any attempt inside the
retry window. -/
lemma ConstantBackoff.delay_nanJitter (s : ConstantBackoff) (a : ℕ) (r : ℚ)
    (hj : s.jitter_factor = Fl.nan) (ha : a < s.max_attempts.val) :
    s.delay a r = some 0 := by
  unfold ConstantBackoff.delay
  rw [if_neg (Nat.not_le.2 ha), hj]
  simp [applyJitterFl, jitterBlend]

/-- Claim C6 (amended): the jitter factor is normalized into `[0,1]`
before use with NaN mapping to full jitter 1.0 in the `Policy` helper and
in the host-binding `normalize_jitter`; the three backoff strategies only
clamp — a non-NaN factor lands in `[0,1]`, but NaN propagates through the
blend and the resulting delay truncates to 0 instead of behaving as full
jitter. -/
theorem claim_c6_jitter_normalization :
    (FFI.normalize_jitter Fl.nan = Fl.val 1) ∧
    (∀ q : ℚ, FFI.normalize_jitter (Fl.val q) = Fl.val (min 1 (max 0 q)) ∧
      0 ≤ min 1 (max 0 q) ∧ min 1 (max 0 q) ≤ 1) ∧
    (∀ (p : Policy) (a : ℕ) (r : ℚ) (x : Fl), ∃ j : ℚ, 0 ≤ j ∧ j ≤ 1 ∧
      p.calculate_delay_with_rng a x r = p.calculate_delay_with_rng a (Fl.val j) r ∧
      (x.isNan = true → j = 1)) ∧
    (∀ q : ℚ, Fl.clamp01 (Fl.val q) = Fl.val (min 1 (max 0 q))) ∧
    (Fl.clamp01 Fl.nan = Fl.nan) ∧
    (∀ (s : ConstantBackoff) (a : ℕ) (r : ℚ),
      s.jitter_factor = Fl.nan → a < s.max_attempts.val → s.delay a r = some 0) := by
  refine ⟨rfl, fun q => ⟨rfl, clamp01_bounds q⟩, ?_, fun q => rfl, rfl,
    ConstantBackoff.delay_nanJitter⟩
  intro p a r x
  cases x with
  | nan =>
    refine ⟨1, by norm_num, by norm_num, ?_, fun _ => rfl⟩
    unfold Policy.calculate_delay_with_rng
    rw [clamp01_of_mem 1 (by norm_num) (by norm_num)]
    rfl
  | val q =>
    refine ⟨min 1 (max 0 q), (clamp01_bounds q).1, (clamp01_bounds q).2, ?_, by simp [Fl.isNan]⟩
    unfold Policy.calculate_delay_with_rng
    rw [clamp01_of_mem (min 1 (max 0 q)) (clamp01_bounds q).1 (clamp01_bounds q).2]
    rfl

/-- Witness for C6 (amended): the `Policy` normalization evaluated on a
NaN jitter factor. -/
theorem claim_c6_witness :
    ∃ j : ℚ, 0 ≤ j ∧ j ≤ 1 ∧
      Policy.calculate_delay_with_rng ⟨3, 100, Fl.val 2, 10000⟩ 1 Fl.nan 0 =
        Policy.calculate_delay_with_rng ⟨3, 100, Fl.val 2, 10000⟩ 1 (Fl.val j) 0 ∧
      (Fl.nan.isNan = true → j = 1) :=
  claim_c6_jitter_normalization.2.2.1 ⟨3, 100, Fl.val 2, 10000⟩ 1 0 Fl.nan

/-- Counterexample for C6 as frozen: in the constant strategy a NaN jitter
factor does not behave as full jitter 1.0 — with a random scalar of 1 full
jitter would return the whole 1000 ms base, but the NaN configuration
returns 0. -/
theorem claim_c6_counterexample :
    ConstantBackoff.delay ⟨1000, 2, Fl.nan⟩ 1 1 = some 0 ∧
    ConstantBackoff.delay ⟨1000, 2, Fl.val 1⟩ 1 1 = some 1000 ∧
    (0 : ℕ) ≠ 1000 := by
  refine ⟨ConstantBackoff.delay_nanJitter _ 1 1 rfl (by decide), ?_, by norm_num⟩
  unfold ConstantBackoff.delay
  rw [if_neg (by decide)]
  have h1 : Fl.clamp01 (Fl.val 1) = Fl.val 1 :=
    clamp01_of_mem 1 (by norm_num) (by norm_num)
  have h2 : jitterBlend (Fl.val 1) (Fl.val 1) = Fl.val 1 := by
    norm_num [jitterBlend]
  simp only [h1, applyJitterFl, h2, Fl.mul_val, mul_one]
  rw [Fl.toU64_val_natCast 1000 (by norm_num [U64MAX])]

lemma listGetQ_append_lt {α : Type} :
    ∀ (l₁ l₂ : List α) (j : ℕ), j < l₁.length → (l₁ ++ l₂).get? j = l₁.get? j := by
  intro l₁
  induction l₁ with
  | nil => intro l₂ j hj; simp at hj
  | cons a l ih =>
    intro l₂ j hj
    cases j with
    | zero => rfl
    | succ j => exact ih l₂ j (by simpa using hj)

lemma listGetQ_append_len {α : Type} :
    ∀ (l : List α) (x : α), (l ++ [x]).get? l.length = some x := by
  intro l x
  induction l with
  | nil => rfl
  | cons a l ih => simp [ih]

lemma listTake_append_le {α : Type} :
    ∀ (l₁ l₂ : List α) (j : ℕ), j ≤ l₁.length → (l₁ ++ l₂).take j = l₁.take j := by
  intro l₁
  induction l₁ with
  | nil =>
    intro l₂ j hj
    have : j = 0 := by simpa using hj
    subst this
    rfl
  | cons a l ih =>
    intro l₂ j hj
    cases j with
    | zero => rfl
    | succ j => simpa using ih l₂ j (by simpa using hj)

lemma foldl_satAdd64_append (l : List ℕ) (d : ℕ) :
    List.foldl satAdd64 0 (l ++ [d]) = satAdd64 (List.foldl satAdd64 0 l) d := by
  simp [List.foldl_append]

/-- The saturating left fold agrees with the exact sum whenever the sum
fits in a `u64`. -/
lemma foldl_satAdd64_eq_sum :
    ∀ (l : List ℕ) (init : ℕ), init + l.sum ≤ U64MAX →
      List.foldl satAdd64 init l = init + l.sum := by
  intro l
  induction l with
  | nil => intro init h; simp
  | cons d l ih =>
    intro init h
    simp only [List.foldl_cons, List.sum_cons]
    simp only [List.sum_cons] at h
    have hsat : satAdd64 init d = init + d := by unfold satAdd64; omega
    rw [hsat, ih (init + d) (by omega)]
    omega

/-- Trace invariant of the retry loop: every notification context carries
the saturating attempt counter, the upcoming delay of the matching sleep,
the cumulative total of the sleeps that happened strictly before it, and
the error of the matching failed invocation. -/
lemma runRetryAux_trace {T E : Type} (op : ℕ → Except E T) (s : Strategy)
    (pred : Option (E → Bool)) (rng : ℕ → ℚ) :
    ∀ (fuel attempt k cum : ℕ) (notifs : List (RetryContext E)) (sleeps : List ℕ)
      (out : RunOutput T E),
      runRetryAux op s pred rng fuel attempt k cum notifs sleeps = some out →
      notifs.length = k → sleeps.length = k → attempt = min (k + 1) 255 →
      cum = List.foldl satAdd64 0 sleeps →
      (∀ j, j < k → ∃ e d, op j = Except.error e ∧ sleeps.get? j = some d ∧
        notifs.get? j = some ⟨min (j + 1) 255, some d,
          List.foldl satAdd64 0 (sleeps.take j), some e⟩) →
      out.notifications.length = out.sleeps.length ∧
      (∀ j, j < out.notifications.length → ∃ e d, op j = Except.error e ∧
        out.sleeps.get? j = some d ∧
        out.notifications.get? j = some ⟨min (j + 1) 255, some d,
          List.foldl satAdd64 0 (out.sleeps.take j), some e⟩) := by
  intro fuel
  induction fuel with
  | zero =>
    intro attempt k cum notifs sleeps out h
    exact absurd h (by simp [runRetryAux])
  | succ n ih =>
    intro attempt k cum notifs sleeps out h hnl hsl hatt hcum H
    cases hok : op k with
    | ok v =>
      rw [runRetryAux_ok op s pred rng hok] at h
      obtain rfl := Option.some.inj h
      exact ⟨hnl.trans hsl.symm, fun j hj => H j (by dsimp only at hj; omega)⟩
    | error e =>
      cases hre : rejected pred e with
      | true =>
        rw [runRetryAux_rejected op s pred rng hok hre] at h
        obtain rfl := Option.some.inj h
        exact ⟨hnl.trans hsl.symm, fun j hj => H j (by dsimp only at hj; omega)⟩
      | false =>
        cases hsr : s.should_retry attempt with
        | false =>
          rw [runRetryAux_noretry op s pred rng hok hre hsr] at h
          obtain rfl := Option.some.inj h
          exact ⟨hnl.trans hsl.symm, fun j hj => H j (by dsimp only at hj; omega)⟩
        | true =>
          cases hd : s.delay attempt (rng k) with
          | none =>
            rw [runRetryAux_delayNone op s pred rng hok hre hsr hd] at h
            obtain rfl := Option.some.inj h
            exact ⟨hnl.trans hsl.symm, fun j hj => H j (by dsimp only at hj; omega)⟩
          | some d =>
            rw [runRetryAux_step op s pred rng hok hre hsr hd] at h
            refine ih _ _ _ _ _ out h ?_ ?_ ?_ ?_ ?_
            · simp [hnl]
            · simp [hsl]
            · unfold satAdd8; omega
            · rw [foldl_satAdd64_append, ← hcum]
            · intro j hj
              rcases Nat.lt_or_ge j k with hjk | hjk
              · obtain ⟨e2, d2, h1, h2, h3⟩ := H j hjk
                refine ⟨e2, d2, h1, ?_, ?_⟩
                · rw [listGetQ_append_lt _ _ j (by omega)]
                  exact h2
                · rw [listGetQ_append_lt _ _ j (by omega),
                    listTake_append_le _ _ j (by omega)]
                  exact h3
              · have hjk2 : j = k := by omega
                subst hjk2
                refine ⟨e, d, hok, ?_, ?_⟩
                · rw [← hsl, listGetQ_append_len]
                · rw [← hnl, listGetQ_append_len, hnl, ← hsl, listTake_append_le _ _ _ le_rfl,
                    List.take_length, hsl]
                  rw [hatt, ← hcum]

/-- Claim C8 (amended): in every terminating run, notifications and sleeps
correspond one to one; the `j`-indexed (0-based) notification carries the
error of the `j`-th failed invocation, `next_delay_ms` equal to the delay
slept right after it, the saturating attempt counter `min (j+1) 255`, and
a cumulative total equal to the saturating sum of the delays slept before
it — in particular 0 for the first notification — which is the exact sum
of those delays whenever that sum fits in a `u64`. -/
theorem claim_c8_notify_before_sleep {T E : Type} (op : ℕ → Except E T)
    (s : Strategy) (pred : Option (E → Bool)) (rng : ℕ → ℚ) (out : RunOutput T E)
    (h : callWithSleeper op s pred rng = some out) :
    out.notifications.length = out.sleeps.length ∧
    (∀ j, j < out.notifications.length → ∃ e d, op j = Except.error e ∧
      out.sleeps.get? j = some d ∧
      out.notifications.get? j = some ⟨min (j + 1) 255, some d,
        List.foldl satAdd64 0 (out.sleeps.take j), some e⟩) ∧
    (∀ j, (out.sleeps.take j).sum ≤ U64MAX →
      List.foldl satAdd64 0 (out.sleeps.take j) = (out.sleeps.take j).sum) := by
  have htr := runRetryAux_trace op s pred rng 256 1 0 0 [] [] out h rfl rfl
    (by norm_num) rfl (fun j hj => absurd hj (by omega))
  refine ⟨htr.1, htr.2, ?_⟩
  intro j hsum
  simpa using foldl_satAdd64_eq_sum (out.sleeps.take j) 0 (by simpa using hsum)

/-- Witness for C8 on a concrete fail-once-then-succeed run under a
constant 10 ms strategy (one notification, one sleep). -/
theorem claim_c8_witness :
    ∃ out : RunOutput Unit Unit,
      callWithSleeper (fun k => if k < 1 then Except.error () else Except.ok ())
        (BackoffPolicy.constant ⟨10, 3, Fl.val 0⟩).toStrategy none (fun _ => 0) = some out ∧
      (out.notifications.length = out.sleeps.length ∧
        (∀ j, j < out.notifications.length → ∃ e d,
          (fun k => if k < 1 then (Except.error () : Except Unit Unit) else Except.ok ()) j =
            Except.error e ∧
          out.sleeps.get? j = some d ∧
          out.notifications.get? j = some ⟨min (j + 1) 255, some d,
            List.foldl satAdd64 0 (out.sleeps.take j), some e⟩) ∧
        (∀ j, (out.sleeps.take j).sum ≤ U64MAX →
          List.foldl satAdd64 0 (out.sleeps.take j) = (out.sleeps.take j).sum)) := by
  have hd1 : (BackoffPolicy.constant ⟨10, 3, Fl.val 0⟩).delay 1 0 = some 10 := by
    simp only [BackoffPolicy.delay]
    rw [ConstantBackoff.constDelay_noJitter 10 3 1 0 (by decide)]
    norm_num [U64MAX]
  have hs1 : (BackoffPolicy.constant ⟨10, 3, Fl.val 0⟩).toStrategy.should_retry 1 = true := by
    rw [BackoffPolicy.toStrategy_should_retry, BackoffPolicy.should_retry_eq]
    decide
  have hrun : callWithSleeper (fun k => if k < 1 then Except.error () else Except.ok ())
      (BackoffPolicy.constant ⟨10, 3, Fl.val 0⟩).toStrategy none (fun _ => 0) =
      some ⟨Except.ok ⟨(), 2, 10⟩, [⟨1, some 10, 0, some ()⟩], [10], 2⟩ := by
    have st1 := runRetryAux_step
      (fun k => if k < 1 then (Except.error () : Except Unit Unit) else Except.ok ())
      (BackoffPolicy.constant ⟨10, 3, Fl.val 0⟩).toStrategy none (fun _ => 0)
      (k := 0) rfl rfl hs1 hd1 255 0 [] []
    have st2 := runRetryAux_ok
      (fun k => if k < 1 then (Except.error () : Except Unit Unit) else Except.ok ())
      (BackoffPolicy.constant ⟨10, 3, Fl.val 0⟩).toStrategy none (fun _ => 0)
      (v := ()) (k := 1) rfl 254 2 10 [⟨1, some 10, 0, some ()⟩] [10]
    rw [show satAdd8 1 1 = 2 by unfold satAdd8; omega,
      show satAdd64 0 10 = 10 by unfold satAdd64; norm_num [U64MAX]] at st1
    simp only [List.nil_append] at st1
    exact st1.trans st2
  exact ⟨_, hrun, claim_c8_notify_before_sleep _ _ none _ _ hrun⟩

/-- Counterexample for C8 as frozen: with three `u64::MAX` delays the
third notification carries the saturating total `u64::MAX`, not the exact
sum of the first two delays. -/
theorem claim_c8_counterexample :
    ∃ out, callWithSleeper (fun _ => (Except.error () : Except Unit Unit))
        (BackoffPolicy.constant ⟨U64MAX, 4, Fl.val 0⟩).toStrategy none (fun _ => 0) = some out ∧
      out.sleeps = [U64MAX, U64MAX, U64MAX] ∧
      out.notifications.map (fun c => c.cumulative_delay_ms) = [0, U64MAX, U64MAX] ∧
      U64MAX ≠ U64MAX + U64MAX := by
  have hd : ∀ a : ℕ, a < 4 →
      (BackoffPolicy.constant ⟨U64MAX, 4, Fl.val 0⟩).delay a 0 = some U64MAX := by
    intro a ha
    have h4 : a < (4 : Fin 256).val := by simpa using ha
    simp only [BackoffPolicy.delay]
    rw [ConstantBackoff.constDelay_noJitter U64MAX 4 a 0 h4]
    simp
  have hs : ∀ a : ℕ, a < 4 →
      (BackoffPolicy.constant ⟨U64MAX, 4, Fl.val 0⟩).toStrategy.should_retry a = true := by
    intro a ha
    rw [BackoffPolicy.toStrategy_should_retry, BackoffPolicy.should_retry_eq]
    simpa using ha
  have hs4 : (BackoffPolicy.constant ⟨U64MAX, 4, Fl.val 0⟩).toStrategy.should_retry 4 = false := by
    rw [BackoffPolicy.toStrategy_should_retry, BackoffPolicy.should_retry_eq]
    decide
  have e8a : satAdd8 1 1 = 2 := by unfold satAdd8; omega
  have e8b : satAdd8 2 1 = 3 := by unfold satAdd8; omega
  have e8c : satAdd8 3 1 = 4 := by unfold satAdd8; omega
  have e64a : satAdd64 0 U64MAX = U64MAX := by simp [satAdd64]
  have e64b : satAdd64 U64MAX U64MAX = U64MAX := by unfold satAdd64; omega
  have hrun : callWithSleeper (fun _ => (Except.error () : Except Unit Unit))
      (BackoffPolicy.constant ⟨U64MAX, 4, Fl.val 0⟩).toStrategy none (fun _ => 0) =
      some ⟨Except.error ⟨RetryErrorKind.exhausted, 4, 4, U64MAX, some ()⟩,
        [⟨1, some U64MAX, 0, some ()⟩, ⟨2, some U64MAX, U64MAX, some ()⟩,
          ⟨3, some U64MAX, U64MAX, some ()⟩],
        [U64MAX, U64MAX, U64MAX], 4⟩ := by
    have st1 := runRetryAux_step (fun _ => (Except.error () : Except Unit Unit))
      (BackoffPolicy.constant ⟨U64MAX, 4, Fl.val 0⟩).toStrategy none (fun _ => 0)
      (k := 0) rfl rfl (hs 1 (by norm_num)) (hd 1 (by norm_num)) 255 0 [] []
    have st2 := runRetryAux_step (fun _ => (Except.error () : Except Unit Unit))
      (BackoffPolicy.constant ⟨U64MAX, 4, Fl.val 0⟩).toStrategy none (fun _ => 0)
      (k := 1) rfl rfl (hs 2 (by norm_num)) (hd 2 (by norm_num)) 254 U64MAX
      [⟨1, some U64MAX, 0, some ()⟩] [U64MAX]
    have st3 := runRetryAux_step (fun _ => (Except.error () : Except Unit Unit))
      (BackoffPolicy.constant ⟨U64MAX, 4, Fl.val 0⟩).toStrategy none (fun _ => 0)
      (k := 2) rfl rfl (hs 3 (by norm_num)) (hd 3 (by norm_num)) 253 U64MAX
      [⟨1, some U64MAX, 0, some ()⟩, ⟨2, some U64MAX, U64MAX, some ()⟩] [U64MAX, U64MAX]
    have st4 := runRetryAux_noretry (fun _ => (Except.error () : Except Unit Unit))
      (BackoffPolicy.constant ⟨U64MAX, 4, Fl.val 0⟩).toStrategy none (fun _ => 0)
      (k := 3) rfl rfl hs4 252 U64MAX
      [⟨1, some U64MAX, 0, some ()⟩, ⟨2, some U64MAX, U64MAX, some ()⟩,
        ⟨3, some U64MAX, U64MAX, some ()⟩] [U64MAX, U64MAX, U64MAX]
    rw [e8a, e64a] at st1
    rw [e8b, e64b] at st2
    rw [e8c, e64b] at st3
    simp only [List.nil_append, List.singleton_append, List.cons_append] at st1 st2 st3
    exact st1.trans (st2.trans (st3.trans st4))
  exact ⟨_, hrun, rfl, rfl, by simp [U64MAX]⟩

/-- Claim C9 (amended): for every non-NaN jitter factor and every attempt
in `[1, 255]` lying inside the core retry window, the host-binding
exponential delay and the core exponential strategy compute the identical
value through identical clamping, capping and jitter formulas — the core
merely truncates it to integer milliseconds at the end (and reads its
inputs in milliseconds where the binding reads seconds).  For a NaN
jitter factor the two sides disagree: the binding normalizes NaN to full
jitter while the core strategy propagates it. -/
theorem claim_c9_ffi_matches_core (bd md : ℕ) (m j r : ℚ) (a : ℕ)
    (ha1 : 1 ≤ a) (ha2 : a ≤ 255) (mx : Fin 256) (hlt : a < mx.val) :
    ∃ q : ℚ,
      FFI.calculate_delay_exponential (a : ℤ) (Fl.val (bd : ℚ)) (Fl.val m)
        (Fl.val (md : ℚ)) (Fl.val j) r = Fl.val q ∧
      ExponentialBackoff.delay ⟨mx, bd, Fl.val m, md, Fl.val j⟩ a r =
        some (Fl.toU64 (Fl.val q)) := by
  have hclamp : (min (max (a : ℤ) 1) 255).toNat = a := by omega
  refine ⟨(min ((bd : ℚ) * m ^ (a - 1)) (md : ℚ)) *
    (1 - min 1 (max 0 j) + r * min 1 (max 0 j)), ?_, ?_⟩
  · unfold FFI.calculate_delay_exponential FFI.normalize_jitter FFI.apply_jitter
    rw [hclamp]
    simp [Fl.isNan, applyJitterFl, jitterBlend]
  · unfold ExponentialBackoff.delay
    rw [if_neg (Nat.not_le.2 hlt)]
    simp [applyJitterFl, jitterBlend]

/-- Witness for C9 (amended) at attempt 1, base 100, multiplier 2, cap
1000, no jitter. -/
theorem claim_c9_witness :
    ∃ q : ℚ,
      FFI.calculate_delay_exponential ((1 : ℕ) : ℤ) (Fl.val ((100 : ℕ) : ℚ)) (Fl.val 2)
        (Fl.val ((1000 : ℕ) : ℚ)) (Fl.val 0) 0 = Fl.val q ∧
      ExponentialBackoff.delay ⟨3, 100, Fl.val 2, 1000, Fl.val 0⟩ 1 0 =
        some (Fl.toU64 (Fl.val q)) :=
  claim_c9_ffi_matches_core 100 1000 2 0 0 1 (by norm_num) (by norm_num) 3 (by decide)

/-- Counterexample for C9 as frozen: with a NaN jitter factor the binding
returns the full base delay (NaN is normalized to full jitter and the
drawn scalar is 1) while the core strategy propagates NaN and its
truncated delay is 0 — the observable delays differ even after
truncation. -/
theorem claim_c9_counterexample :
    FFI.calculate_delay_exponential 1 (Fl.val 100) (Fl.val 1) (Fl.val 1000) Fl.nan 1 =
      Fl.val 100 ∧
    ExponentialBackoff.delay ⟨2, 100, Fl.val 1, 1000, Fl.nan⟩ 1 1 = some 0 ∧
    Fl.toU64 (Fl.val 100) = 100 ∧ (100 : ℕ) ≠ 0 := by
  refine ⟨?_, ?_, ?_, by norm_num⟩
  · unfold FFI.calculate_delay_exponential FFI.normalize_jitter FFI.apply_jitter
    norm_num [Fl.isNan, applyJitterFl, jitterBlend]
  · unfold ExponentialBackoff.delay
    rw [if_neg (by decide)]
    simp [applyJitterFl, jitterBlend]
  · have h1 : Int.toNat 100 = 100 := rfl
    norm_num [Fl.toU64, U64MAX, Int.floor_ofNat, h1]

end Claims

end ChronoMachines
